import Mathlib

/-!
Shallow embedding of the brainfuck interpreter in `src/brainfuck.c`.

The embedded core consists of:
  * `interpret`    : the dispatch loop of `interpret` (lines 285-350),
  * `matchBracket` : the bracket matcher `matchBracket` (lines 358-374),
  * `findPosition` : the position resolver `findPosition` (lines 382-399).

Modelling conventions:
  * The instruction buffer is a `List Nat` of bytes; in the C program the
    loaded buffer carries a terminating 0 byte in its last cell, which we
    model by letting every read at or beyond `code.length` return 0
    (`getByte`).  Reads at negative offsets are undefined behavior in C;
    the model returns 0 there and, where a claim is about such reads, a
    separate instrumented scan records every index read.
  * Tape cells are `int8_t` in C; we store each cell as a byte
    (a `Nat` kept below 256 by taking `% 256` on every write) and use
    `toSigned` for the signed view used by the C comparisons
    (`INT8_MAX = 127`, `INT8_MIN = -128`, truthiness tests).
  * The data cursor `dp` models the pointer difference
    `state->data - state->dataStart` and may leave `[0, dataSize)` when
    checks are disabled (or, as proved below, even when they are enabled).
    Cell accesses outside the allocated tape are undefined behavior in C;
    the model reads 0 and drops writes there, and claims about such
    accesses are settled by tracking `dp` itself.
  * The C loops of `matchBracket` terminate because each scan moves one
    position per iteration and stops at the sentinel (forward) or below
    offset 0 (backward); the embedding makes this explicit by structural
    recursion on a fuel argument that the wrappers instantiate with a
    bound that is at least the maximal possible number of iterations.
-/

namespace Brainfuck

/-- Byte read from the instruction buffer at offset `p`; reads at or past
`code.length` yield the terminating sentinel 0 (the C buffer stores a 0
byte at its end). -/
def getByte (code : List Nat) (p : Nat) : Nat :=
  code.getD p 0

/-- Byte read at a possibly negative pointer offset.  A negative offset is
an out-of-bounds read (undefined behavior) in the C program; the model
returns 0 there. -/
def getByteI (code : List Nat) (p : Int) : Nat :=
  if 0 ≤ p then getByte code p.toNat else 0

/-- The depth contribution of one byte in `matchBracket`:
`(*state->code == '[') - (*state->code == ']')` with `'[' = 91`, `']' = 93`. -/
def depthDelta (b : Nat) : Int :=
  (if b = 91 then (1 : Int) else 0) - (if b = 93 then (1 : Int) else 0)

/-- Forward scan of `matchBracket` (the `forward = true` direction of the
`for` loop at line 363).  At each position the loop condition first reads
the byte and updates the depth counter `i`; if the counter is 0 the loop
exits with the current position; otherwise the loop body fails at the
sentinel; otherwise the scan moves one position forward.  The extra `fuel`
argument only makes the C loop's termination explicit; the wrapper passes
`code.length + 1`, which bounds the number of iterations of any forward
scan that starts at a nonnegative offset. -/
def matchFwdAux (code : List Nat) : Nat → Nat → Int → Option Nat
  | 0, _, _ => none
  | fuel + 1, pos, i =>
    let b := getByte code pos
    let j := i + depthDelta b
    if j = 0 then some pos
    else if b = 0 then none
    else matchFwdAux code fuel (pos + 1) j

/-- Backward scan of `matchBracket` (the `forward = false` direction).
Identical to the forward scan except that the loop body also fails when
the offset has become negative (`state->code - state->codeStart < 0`) and
the scan moves one position backward.  Note that, as in the C loop, the
byte at the current offset is read by the loop condition *before* the
body's underflow check runs, so the scan does read offset -1 when it runs
off the front of the buffer.  The wrapper passes fuel `start + 2`, which
bounds the iterations of a backward scan from offset `start`. -/
def matchBwdAux (code : List Nat) : Nat → Int → Int → Option Int
  | 0, _, _ => none
  | fuel + 1, pos, i =>
    let b := getByteI code pos
    let j := i + depthDelta b
    if j = 0 then some pos
    else if pos < 0 ∨ b = 0 then none
    else matchBwdAux code fuel (pos - 1) j

/-- The list of instruction-buffer offsets read by the backward scan, in
scan order.  This mirrors `matchBwdAux` exactly, recording the offset
whose byte the loop condition reads at each iteration. -/
def matchBwdReadsAux (code : List Nat) : Nat → Int → Int → List Int
  | 0, _, _ => []
  | fuel + 1, pos, i =>
    let b := getByteI code pos
    let j := i + depthDelta b
    if j = 0 then [pos]
    else if pos < 0 ∨ b = 0 then [pos]
    else pos :: matchBwdReadsAux code fuel (pos - 1) j

/-- `matchBracket` (lines 358-374): saves the current code offset, scans in
the requested direction, and on failure restores the saved offset
(`state->code = codeCurrent`).  Returns the C function's boolean result
together with the code offset it leaves in the state (the match position
on success, the original offset on failure). -/
def matchBracket (code : List Nat) (ip : Nat) (forward : Bool) : Bool × Nat :=
  if forward then
    match matchFwdAux code (code.length + 1) ip 0 with
    | some j => (true, j)
    | none => (false, ip)
  else
    match matchBwdAux code (ip + 2) (ip : Int) 0 with
    | some j => (true, j.toNat)
    | none => (false, ip)

/-- All instruction-buffer offsets read by a backward `matchBracket` scan
started at offset `ip`. -/
def matchBwdReads (code : List Nat) (ip : Nat) : List Int :=
  matchBwdReadsAux code (ip + 2) (ip : Int) 0

/-- The error enumeration `errorCodes` (line 30); `E_SYNTAX_ERROR` is
named `E_SYNTAX` in the source. -/
inductive ErrorCode
  | E_FILE | E_MEMORY | E_INDEX_ABOVE | E_INDEX_BELOW | E_WRAP_OVER
  | E_WRAP_UNDER | E_OPEN_BRACKET | E_CLOSE_BRACKET | E_SYNTAX_ERROR | E_NONE
deriving DecidableEq

/-- The configuration subset of `InterpreterState` that `interpret` reads
(lines 14-27). -/
structure Config where
  dataSize : Nat
  enableBoundsCheck : Bool
  enableWrapCheck : Bool
  enableSyntaxCheck : Bool
deriving DecidableEq

/-- The mutable execution state of `interpret`: the code offset
`ip = state->code - state->codeStart`, the data offset
`dp = state->data - state->dataStart` (a pointer difference, possibly
negative or past the end when checks are off), the tape cells, and the
remaining input / produced output bytes of `getchar` / `putchar`. -/
structure BfState where
  ip : Nat
  dp : Int
  tape : List Nat
  input : List Nat
  output : List Nat
deriving DecidableEq

/-- Signed `int8_t` view of a cell byte (two's complement). -/
def toSigned (b : Nat) : Int :=
  if b < 128 then (b : Int) else (b : Int) - 256

/-- Cell read `*state->data`; out-of-tape reads are undefined behavior in
C, modelled as 0. -/
def readCell (tape : List Nat) (dp : Int) : Nat :=
  if 0 ≤ dp then tape.getD dp.toNat 0 else 0

/-- Cell write `*state->data = v`; out-of-tape writes are undefined
behavior in C, modelled as dropped. -/
def writeCell (tape : List Nat) (dp : Int) (v : Nat) : List Nat :=
  if 0 ≤ dp then tape.set dp.toNat v else tape

/-- One iteration of the dispatch `switch` of `interpret` (lines 290-346),
including the trailing `++state->code`, which an error return skips.
Instruction bytes: `'>' = 62`, `'<' = 60`, `'+' = 43`, `'-' = 45`,
`'[' = 91`, `']' = 93`, `',' = 44`, `'.' = 46`, newline = 10.
The `'>'` bounds check compares the `uint32_t` cast of the pointer
difference with `dataSize`; the `'+'`/`'-'` wrap checks compare the signed
cell with `INT8_MAX` / `INT8_MIN`; `','` stores `(int8_t)getchar()`, where
`getchar` yields `EOF = -1` on exhausted input; the `default` case allows,
besides newline, the byte 0 (C `strchr` also finds the terminator of
`allowedCharacters`). -/
def execInstr (cfg : Config) (code : List Nat) (s : BfState) :
    Except (ErrorCode × BfState) BfState :=
  let b := getByte code s.ip
  if b = 62 then
    if cfg.enableBoundsCheck ∧ (s.dp % 4294967296).toNat = cfg.dataSize then
      .error (.E_INDEX_ABOVE, s)
    else .ok { s with dp := s.dp + 1, ip := s.ip + 1 }
  else if b = 60 then
    if cfg.enableBoundsCheck ∧ s.dp = 0 then
      .error (.E_INDEX_BELOW, s)
    else .ok { s with dp := s.dp - 1, ip := s.ip + 1 }
  else if b = 43 then
    if cfg.enableWrapCheck ∧ toSigned (readCell s.tape s.dp) = 127 then
      .error (.E_WRAP_OVER, s)
    else .ok { s with tape := writeCell s.tape s.dp ((readCell s.tape s.dp + 1) % 256),
                      ip := s.ip + 1 }
  else if b = 45 then
    if cfg.enableWrapCheck ∧ toSigned (readCell s.tape s.dp) = -128 then
      .error (.E_WRAP_UNDER, s)
    else .ok { s with tape := writeCell s.tape s.dp ((readCell s.tape s.dp + 255) % 256),
                      ip := s.ip + 1 }
  else if b = 91 then
    if toSigned (readCell s.tape s.dp) = 0 then
      let m := matchBracket code s.ip true
      if m.1 then .ok { s with ip := m.2 + 1 }
      else .error (.E_OPEN_BRACKET, { s with ip := m.2 })
    else .ok { s with ip := s.ip + 1 }
  else if b = 93 then
    if toSigned (readCell s.tape s.dp) ≠ 0 then
      let m := matchBracket code s.ip false
      if m.1 then .ok { s with ip := m.2 + 1 }
      else .error (.E_CLOSE_BRACKET, { s with ip := m.2 })
    else .ok { s with ip := s.ip + 1 }
  else if b = 44 then
    match s.input with
    | c :: rest =>
      .ok { s with tape := writeCell s.tape s.dp (((c : Int) % 256).toNat),
                   input := rest, ip := s.ip + 1 }
    | [] =>
      .ok { s with tape := writeCell s.tape s.dp (((-1 : Int) % 256).toNat),
                   ip := s.ip + 1 }
  else if b = 46 then
    .ok { s with output := s.output ++ [readCell s.tape s.dp], ip := s.ip + 1 }
  else
    if cfg.enableSyntaxCheck ∧ ¬(b = 10 ∨ b = 0) then
      .error (.E_SYNTAX_ERROR, s)
    else .ok { s with ip := s.ip + 1 }

/-- Result of running `interpret`: the C function returns an error code
(`E_NONE` on success) and leaves the final state in `*state`; `timeout`
only signals exhausted fuel of the embedding. -/
inductive RunResult
  | done (e : ErrorCode) (s : BfState)
  | timeout
deriving DecidableEq

/-- The `while (*state->code)` loop of `interpret` (lines 285-350): stop
with `E_NONE` at the sentinel, otherwise dispatch one instruction and
either return its error or continue.  `fuel` bounds the number of
iterations; a claim about termination supplies a sufficient fuel
explicitly. -/
def interpret (cfg : Config) (code : List Nat) : Nat → BfState → RunResult
  | 0, _ => .timeout
  | fuel + 1, s =>
    if getByte code s.ip = 0 then .done .E_NONE s
    else
      match execInstr cfg code s with
      | .error (e, s') => .done e s'
      | .ok s' => interpret cfg code fuel s'

/-- The state at the start of `interpret`: both cursors at 0 and the tape
zero-initialized by `calloc(dataSize, 1)` (line 118). -/
def initState (cfg : Config) (input : List Nat) : BfState :=
  ⟨0, 0, List.replicate cfg.dataSize 0, input, []⟩

/-- The scanning loop of `findPosition` (lines 382-399) over the bytes
before the error offset: every byte advances the column `x`; a newline
byte then resets `x` to 1 and advances the row `y`. -/
def findPosAux : List Nat → Nat → Nat → Nat × Nat
  | [], x, y => (x, y)
  | b :: rest, x, y =>
    if b = 10 then findPosAux rest 1 (y + 1) else findPosAux rest (x + 1) y

/-- `findPosition` (lines 382-399): scan the bytes at offsets `[0, ip)`
starting from row 1, column 1, and return `(row, column)`. -/
def findPosition (code : List Nat) (ip : Nat) : Nat × Nat :=
  let p := findPosAux (code.take ip) 1 1
  (p.2, p.1)

/-- Stated from the claim's words: the row is `k + 1` where `k` is the
number of newline bytes strictly before offset `ip`. -/
def rowSpec (code : List Nat) (ip : Nat) : Nat :=
  (code.take ip).countP (fun b => b == 10) + 1

/-- Stated from the claim's words: the column is the distance in bytes
since the last newline before `ip` (or since the start when there is
none) plus 1, i.e. 1 plus the length of the maximal newline-free suffix
of the bytes before `ip`. -/
def colSpec (code : List Nat) (ip : Nat) : Nat :=
  ((code.take ip).reverse.takeWhile (fun b => b != 10)).length + 1

/-- The bracket-depth of the first `k` bytes of the instruction buffer:
number of `[` minus number of `]` among them. -/
def depthAt (code : List Nat) (k : Nat) : Int :=
  (((code.take k).countP (fun b => b == 91) : Int)) -
    (((code.take k).countP (fun b => b == 93) : Int))

/-- Stated from the claim's words: the program consists only of `[` and
`]` instructions. -/
def BracketOnly (code : List Nat) : Prop :=
  ∀ b ∈ code, b = 91 ∨ b = 93

/-- Stated from the claim's words: the brackets of the program are
balanced — the standard Dyck condition that every prefix has at least as
many `[` as `]` and the whole program has equally many. -/
def BalancedDyck (code : List Nat) : Prop :=
  depthAt code code.length = 0 ∧ ∀ k, k ≤ code.length → 0 ≤ depthAt code k

/-! ## Theorems -/

/-- C1: the claim says that with bounds checking enabled and
`dataSize = N` the instruction `>` fails with `E_INDEX_ABOVE` exactly when
`dp = N - 1`, so that a program of `N` consecutive `>` fails at the `N`th
one.  The code instead compares the data offset with `dataSize` itself
(line 294), so the check fires one instruction too late: with `N = 1` the
program `>` (the `N` consecutive `>`) terminates with `E_NONE` and leaves
`dp = 1 = dataSize`, and only a program of `N + 1` consecutive `>` fails,
at the `(N+1)`th one. -/
theorem c1_index_above_off_by_one :
    interpret ⟨1, true, false, false⟩ [62] 5 (initState ⟨1, true, false, false⟩ []) =
      .done .E_NONE ⟨1, 1, [0], [], []⟩ ∧
    interpret ⟨1, true, false, false⟩ [62, 62] 5 (initState ⟨1, true, false, false⟩ []) =
      .done .E_INDEX_ABOVE ⟨1, 1, [0], [], []⟩ := by
  decide

/-- C2: the claim says that with bounds checking enabled the data cursor
satisfies `0 ≤ dp < dataSize` in every reachable state, and every cell
access is in bounds.  In the code the `>` check (line 294) lets `dp`
reach `dataSize`: with `dataSize = 1` the program `>+` terminates with
`E_NONE` in a state whose `dp` equals 1, outside `[0, 1)`, and the `+` was
executed at that out-of-bounds offset (an out-of-bounds write in C,
dropped by the model). -/
theorem c2_dp_leaves_tape_under_bounds_check :
    ∃ s : BfState,
      interpret ⟨1, true, false, false⟩ [62, 43] 5 (initState ⟨1, true, false, false⟩ []) =
        .done .E_NONE s ∧
      ¬(s.dp < ((⟨1, true, false, false⟩ : Config).dataSize : Int)) :=
  ⟨⟨2, 1, [0], [], []⟩, by decide⟩

/-- C10: the claim says every instruction-buffer read of a bracket scan is
at an offset in `[0, sentinel]`, in particular that a backward scan from
an unmatched `]` never reads below offset 0 before detecting underflow.
In the code the `for` loop condition of `matchBracket` (line 363)
dereferences the code pointer before the body's underflow check (line
366) runs: scanning backward from the unmatched `]` of the program `+]`
(bytes `[43, 93]`) reads offsets 1, 0 and then -1 — an out-of-bounds read
— before the scan fails. -/
theorem c10_backward_scan_reads_offset_below_zero :
    matchBwdReads [43, 93] 1 = [1, 0, -1] ∧
    (-1 : Int) ∈ matchBwdReads [43, 93] 1 ∧
    matchBracket [43, 93] 1 false = (false, 1) := by
  decide

/-- C5: with wrap checking enabled, `+` on a cell holding 127 (the
maximum signed 8-bit value) fails with `E_WRAP_OVER` before mutating the
cell, and `-` on a cell holding -128 fails with `E_WRAP_UNDER`; in both
cases the error state is the unchanged pre-instruction state, so the cell
still holds its old value. -/
theorem c5_wrap_checks_fail_before_mutation (cfg : Config) (code : List Nat) (s : BfState)
    (hw : cfg.enableWrapCheck = true) :
    (getByte code s.ip = 43 → toSigned (readCell s.tape s.dp) = 127 →
      execInstr cfg code s = .error (.E_WRAP_OVER, s)) ∧
    (getByte code s.ip = 45 → toSigned (readCell s.tape s.dp) = -128 →
      execInstr cfg code s = .error (.E_WRAP_UNDER, s)) := by
  constructor <;> intro hb hc <;> simp [execInstr, hb, hc, hw]

/-- Witness for C5 at a concrete input: wrap checking on, program `+`,
cell at 127. -/
theorem c5_wrap_checks_fail_before_mutation_witness :
    ((⟨1, false, true, false⟩ : Config).enableWrapCheck = true ∧
      getByte [43] 0 = 43 ∧ toSigned (readCell [127] 0) = 127) ∧
    execInstr ⟨1, false, true, false⟩ [43] ⟨0, 0, [127], [], []⟩ =
      .error (.E_WRAP_OVER, ⟨0, 0, [127], [], []⟩) :=
  ⟨⟨rfl, rfl, by decide⟩,
    (c5_wrap_checks_fail_before_mutation ⟨1, false, true, false⟩ [43]
      ⟨0, 0, [127], [], []⟩ rfl).1 rfl (by decide)⟩

set_option maxRecDepth 8000 in
/-- C8: with wrap checking disabled, `+` followed by `-` on the same cell
returns the cell to its starting value, for every starting byte value of
the signed 8-bit cell — including the boundary values 127 and -128
(byte 128) — because increment and decrement both wrap modulo 256. -/
theorem c8_plus_minus_round_trip (b : Nat) (hb : b < 256) :
    interpret ⟨1, false, false, false⟩ [43, 45] 3 ⟨0, 0, [b], [], []⟩ =
      .done .E_NONE ⟨2, 0, [b], [], []⟩ := by
  revert b hb
  decide

/-- Witness for C8 at the boundary byte 128 (cell value -128). -/
theorem c8_plus_minus_round_trip_witness :
    (128 : Nat) < 256 ∧
    interpret ⟨1, false, false, false⟩ [43, 45] 3 ⟨0, 0, [128], [], []⟩ =
      .done .E_NONE ⟨2, 0, [128], [], []⟩ :=
  ⟨by decide, c8_plus_minus_round_trip 128 (by decide)⟩

/-- C9: executing `,` when the input is exhausted stores the byte 255 —
the `int8_t` cast of the `EOF` indicator -1 returned by `getchar` — into
the current cell and raises no error; `toSigned 255 = -1` states that the
stored cell value is -1. -/
theorem c9_comma_on_eof_stores_minus_one (cfg : Config) (code : List Nat) (s : BfState)
    (hb : getByte code s.ip = 44) (hin : s.input = []) :
    execInstr cfg code s =
      .ok { s with tape := writeCell s.tape s.dp 255, ip := s.ip + 1 } ∧
    toSigned 255 = -1 := by
  constructor
  · simp [execInstr, hb, hin]
  · decide

/-- Witness for C9 at a concrete input: program `,`, empty input. -/
theorem c9_comma_on_eof_stores_minus_one_witness :
    (getByte [44] 0 = 44 ∧ ([] : List Nat) = []) ∧
    (execInstr ⟨1, false, false, false⟩ [44] ⟨0, 0, [7], [], []⟩ =
      .ok { (⟨0, 0, [7], [], []⟩ : BfState) with
              tape := writeCell [7] 0 255, ip := 0 + 1 } ∧
      toSigned 255 = -1) :=
  ⟨⟨rfl, rfl⟩,
    c9_comma_on_eof_stores_minus_one ⟨1, false, false, false⟩ [44]
      ⟨0, 0, [7], [], []⟩ rfl rfl⟩

/-! ## C6: the position resolver -/

lemma findPosAux_row (l : List Nat) :
    ∀ x y, (findPosAux l x y).2 = y + l.countP (fun b => b == 10) := by
  induction l with
  | nil => intro x y; simp [findPosAux]
  | cons b rest ih =>
    intro x y
    by_cases hb : b = 10 <;>
      · simp [findPosAux, hb, ih, List.countP_cons]
        try omega

lemma takeWhile_append_all {p : Nat → Bool} (l₁ l₂ : List Nat)
    (h : ∀ a ∈ l₁, p a = true) :
    (l₁ ++ l₂).takeWhile p = l₁ ++ l₂.takeWhile p := by
  induction l₁ with
  | nil => simp
  | cons a t ih =>
    have ha : p a = true := h a (by simp)
    simp only [List.cons_append, List.takeWhile_cons, ha, if_true]
    rw [ih (fun a ha => h a (by simp [ha]))]

lemma takeWhile_append_stop {p : Nat → Bool} (l₁ l₂ : List Nat)
    (h : ∃ a ∈ l₁, p a = false) :
    (l₁ ++ l₂).takeWhile p = l₁.takeWhile p := by
  induction l₁ with
  | nil => simp at h
  | cons a t ih =>
    by_cases ha : p a = true
    · simp only [List.cons_append, List.takeWhile_cons, ha, if_true]
      rcases h with ⟨c, hc, hcp⟩
      rcases List.mem_cons.mp hc with hc | hc
      · subst hc; rw [ha] at hcp; cases hcp
      · rw [ih ⟨c, hc, hcp⟩]
    · have ha' : p a = false := by revert ha; cases p a <;> simp
      simp [List.takeWhile_cons, ha']

lemma takeWhile_all {p : Nat → Bool} (l : List Nat) (h : ∀ a ∈ l, p a = true) :
    l.takeWhile p = l := by
  induction l with
  | nil => simp
  | cons a t ih =>
    have ha : p a = true := h a (by simp)
    simp [List.takeWhile_cons, ha, ih (fun x hx => h x (by simp [hx]))]

lemma reverse_no_newline {l : List Nat} (h : 10 ∉ l) :
    ∀ a ∈ l.reverse, (fun b => b != 10) a = true := by
  intro a ha
  have hm : a ∈ l := List.mem_reverse.mp ha
  have : a ≠ 10 := fun he => h (he ▸ hm)
  simp [this]

lemma findPosAux_col (l : List Nat) :
    ∀ x y, (findPosAux l x y).1 =
      if 10 ∈ l then (l.reverse.takeWhile (fun b => b != 10)).length + 1
      else x + l.length := by
  induction l with
  | nil => intro x y; simp [findPosAux]
  | cons b rest ih =>
    intro x y
    by_cases hb : b = 10
    · subst hb
      simp only [findPosAux, if_true, List.mem_cons, true_or, List.reverse_cons,
        if_pos trivial]
      rw [ih 1 (y + 1)]
      by_cases hr : 10 ∈ rest
      · rw [if_pos hr,
          takeWhile_append_stop rest.reverse [10] ⟨10, List.mem_reverse.mpr hr, by simp⟩]
      · rw [if_neg hr, takeWhile_append_all rest.reverse [10] (reverse_no_newline hr)]
        simp
        omega
    · simp only [findPosAux, hb, if_false, List.reverse_cons]
      rw [ih (x + 1) y]
      by_cases hr : 10 ∈ rest
      · rw [if_pos hr, if_pos (List.mem_cons.mpr (Or.inr hr)),
          takeWhile_append_stop rest.reverse [b] ⟨10, List.mem_reverse.mpr hr, by simp⟩]
      · have hmem : 10 ∉ b :: rest := by
          intro hm
          rcases List.mem_cons.mp hm with hm | hm
          · exact hb hm.symm
          · exact hr hm
        rw [if_neg hr, if_neg hmem]
        simp
        omega

/-- C6: for every buffer and every offset `ip` into it, `findPosition`
returns the row `k + 1`, where `k` is the number of newline bytes
strictly before `ip`, and the column 1 plus the distance in bytes since
the last newline before `ip` (or since the start when there is none);
only the bytes at offsets `[0, ip)` are scanned and no execution state is
involved. -/
theorem c6_findPosition_row_column (code : List Nat) (ip : Nat)
    (_hip : ip ≤ code.length) :
    findPosition code ip = (rowSpec code ip, colSpec code ip) := by
  unfold findPosition rowSpec colSpec
  refine Prod.ext ?_ ?_
  · show (findPosAux (code.take ip) 1 1).2 = _
    rw [findPosAux_row (code.take ip) 1 1]
    omega
  · show (findPosAux (code.take ip) 1 1).1 = _
    rw [findPosAux_col (code.take ip) 1 1]
    by_cases h10 : 10 ∈ code.take ip
    · rw [if_pos h10]
    · rw [if_neg h10, takeWhile_all _ (reverse_no_newline h10)]
      simp
      omega

/-- Witness for C6 at a concrete input: the buffer `"ab\ncd"` at offset
4 resolves to row 2, column 2. -/
theorem c6_findPosition_row_column_witness :
    (4 ≤ ([97, 98, 10, 99, 100] : List Nat).length) ∧
    findPosition [97, 98, 10, 99, 100] 4 =
      (rowSpec [97, 98, 10, 99, 100] 4, colSpec [97, 98, 10, 99, 100] 4) :=
  ⟨by decide, c6_findPosition_row_column [97, 98, 10, 99, 100] 4 (by decide)⟩

/-! ## C3: failed bracket matches and the `E_OPEN_BRACKET` error record -/

lemma matchBracket_fail_restores_ip (code : List Nat) (ip : Nat) (fwd : Bool)
    (h : (matchBracket code ip fwd).1 = false) :
    (matchBracket code ip fwd).2 = ip := by
  unfold matchBracket at *
  cases fwd with
  | true =>
    cases hm : matchFwdAux code (code.length + 1) ip 0 <;> simp_all
  | false =>
    cases hm : matchBwdAux code (ip + 2) (ip : Int) 0 <;> simp_all

lemma execInstr_open_bracket_inv {cfg : Config} {code : List Nat} {s s' : BfState}
    (h : execInstr cfg code s = .error (.E_OPEN_BRACKET, s')) :
    getByte code s.ip = 91 ∧ toSigned (readCell s.tape s.dp) = 0 ∧
      matchBracket code s.ip true = (false, s.ip) ∧ s' = s := by
  simp only [execInstr] at h
  split at h
  · split at h <;> simp at h
  split at h
  · split at h <;> simp at h
  split at h
  · split at h <;> simp at h
  split at h
  · split at h <;> simp at h
  split at h
  · rename_i h91
    split at h
    · rename_i hzero
      split at h
      · simp at h
      · rename_i hfail
        have hfalse : (matchBracket code s.ip true).1 = false := by
          revert hfail
          cases (matchBracket code s.ip true).1 <;> simp
        have hip := matchBracket_fail_restores_ip code s.ip true hfalse
        simp only [Except.error.injEq, Prod.mk.injEq] at h
        obtain ⟨-, hs'⟩ := h
        refine ⟨h91, hzero, ?_, ?_⟩
        · have hpair : matchBracket code s.ip true
              = ((matchBracket code s.ip true).1, (matchBracket code s.ip true).2) := rfl
          rw [hpair, hfalse, hip]
        · rw [← hs', hip]
    · simp at h
  split at h
  · split at h
    · split at h <;> simp at h
    · simp at h
  split at h
  · split at h <;> simp at h
  split at h
  · simp at h
  · split at h <;> simp at h

/-- C3: (a) whenever a bracket-matcher call fails, the code offset it
leaves behind is the offset from before the call (`matchBracket` restores
the saved pointer on failure); (b) whenever a run of the interpreter
fails with `E_OPEN_BRACKET`, the error state `s'` it reports has at its
instruction offset the `[` that failed, the current cell of `s'` is zero,
and the forward bracket match from that very offset fails leaving the
offset unchanged — so the reported position is the offset of the
unmatched `[`, and the error arises only when that `[` is reached with a
zero cell. -/
theorem c3_open_bracket_error_reporting :
    (∀ (code : List Nat) (ip : Nat) (fwd : Bool),
        (matchBracket code ip fwd).1 = false → (matchBracket code ip fwd).2 = ip) ∧
    (∀ (cfg : Config) (code : List Nat) (fuel : Nat) (s s' : BfState),
        interpret cfg code fuel s = .done .E_OPEN_BRACKET s' →
        getByte code s'.ip = 91 ∧ toSigned (readCell s'.tape s'.dp) = 0 ∧
          matchBracket code s'.ip true = (false, s'.ip)) := by
  constructor
  · exact matchBracket_fail_restores_ip
  · intro cfg code fuel
    induction fuel with
    | zero => intro s s' h; simp [interpret] at h
    | succ f ih =>
      intro s s' h
      rw [interpret] at h
      split at h
      · simp at h
      · cases hE : execInstr cfg code s with
        | error p =>
          obtain ⟨e, s₀⟩ := p
          rw [hE] at h
          simp only at h
          cases h
          obtain ⟨hb, hz, hm, hs⟩ := execInstr_open_bracket_inv hE
          subst hs
          exact ⟨hb, hz, hm⟩
        | ok s₁ =>
          rw [hE] at h
          exact ih s₁ s' h

/-- Witness for C3 part (b) at a concrete input: the one-instruction
program `[` run on a zero cell fails with `E_OPEN_BRACKET` at offset 0. -/
theorem c3_open_bracket_error_reporting_witness :
    interpret ⟨1, false, false, false⟩ [91] 2 (initState ⟨1, false, false, false⟩ []) =
      .done .E_OPEN_BRACKET ⟨0, 0, [0], [], []⟩ ∧
    (getByte [91] (0 : Nat) = 91 ∧ toSigned (readCell [0] 0) = 0 ∧
      matchBracket [91] 0 true = (false, 0)) :=
  ⟨by decide,
    c3_open_bracket_error_reporting.2 ⟨1, false, false, false⟩ [91] 2
      (initState ⟨1, false, false, false⟩ []) ⟨0, 0, [0], [], []⟩ (by decide)⟩

/-! ## C4: structurally nested bracket matching -/

lemma interpret_step {cfg : Config} {code : List Nat} {s s' : BfState} {f : Nat}
    (hE : execInstr cfg code s = .ok s') (hb : getByte code s.ip ≠ 0) :
    interpret cfg code (f + 1) s = interpret cfg code f s' := by
  rw [interpret, if_neg hb, hE]

lemma interpret_more_fuel {cfg : Config} {code : List Nat} :
    ∀ {f f' : Nat}, f ≤ f' → ∀ {e : ErrorCode} {s₀ : BfState} (s : BfState),
      interpret cfg code f s = .done e s₀ → interpret cfg code f' s = .done e s₀ := by
  intro f
  induction f with
  | zero => intro f' _ e s₀ s h; simp [interpret] at h
  | succ f ih =>
    intro f' hle e s₀ s h
    cases f' with
    | zero => omega
    | succ f'' =>
      rw [interpret] at h ⊢
      split at h
      · rw [if_pos (by assumption)]; exact h
      · rw [if_neg (by assumption)]
        cases hE : execInstr cfg code s with
        | error p => obtain ⟨e₁, s₁⟩ := p; rw [hE] at h; exact h
        | ok s₁ => rw [hE] at h; exact ih (by omega) s₁ h

lemma toSigned_ne_zero_of_pos {b : Nat} (h1 : 1 ≤ b) (h2 : b ≤ 255) :
    toSigned b ≠ 0 := by
  unfold toSigned
  split <;> omega

lemma exec_inner_minus (m : Nat) (hm : m ≤ 254) :
    execInstr ⟨1, false, false, false⟩ [91, 91, 45, 93, 93] ⟨2, 0, [m + 1], [], []⟩ =
      .ok ⟨3, 0, [m], [], []⟩ := by
  have hb : getByte [91, 91, 45, 93, 93] (2 : Nat) = 45 := by decide
  simp [execInstr, hb, readCell, writeCell]
  omega

lemma exec_inner_rbracket (m : Nat) (h1 : 1 ≤ m) (h2 : m ≤ 255) :
    execInstr ⟨1, false, false, false⟩ [91, 91, 45, 93, 93] ⟨3, 0, [m], [], []⟩ =
      .ok ⟨2, 0, [m], [], []⟩ := by
  have hb : getByte [91, 91, 45, 93, 93] (3 : Nat) = 93 := by decide
  have hmb : matchBracket [91, 91, 45, 93, 93] 3 false = (true, 1) := by decide
  have hnz : toSigned (readCell [m] 0) ≠ 0 := by
    simpa [readCell] using toSigned_ne_zero_of_pos h1 h2
  simp [execInstr, hb, hmb, hnz]

lemma c4_inner_loop :
    ∀ n : Nat, n ≤ 254 →
      interpret ⟨1, false, false, false⟩ [91, 91, 45, 93, 93] (2 * (n + 1) + 2)
        ⟨2, 0, [n + 1], [], []⟩ = .done .E_NONE ⟨5, 0, [0], [], []⟩ := by
  intro n
  induction n with
  | zero => intro _; decide
  | succ n ih =>
    intro hn
    have hfuel : 2 * (n + 1 + 1) + 2 = (2 * (n + 1) + 2) + 1 + 1 := by ring
    rw [hfuel]
    rw [interpret_step (exec_inner_minus (n + 1) (by omega))
      (show getByte [91, 91, 45, 93, 93] 2 ≠ 0 by decide)]
    rw [interpret_step (exec_inner_rbracket (n + 1) (by omega) (by omega))
      (show getByte [91, 91, 45, 93, 93] 3 ≠ 0 by decide)]
    exact ih (by omega)

lemma exec_lbracket_nonzero (p : Nat) (hp : p ≤ 1) (b : Nat) (h1 : 1 ≤ b) (h2 : b ≤ 255) :
    execInstr ⟨1, false, false, false⟩ [91, 91, 45, 93, 93] ⟨p, 0, [b], [], []⟩ =
      .ok ⟨p + 1, 0, [b], [], []⟩ := by
  have hb : getByte [91, 91, 45, 93, 93] p = 91 := by
    interval_cases p <;> decide
  have hnz : ¬ toSigned (readCell [b] 0) = 0 := by
    simpa [readCell] using toSigned_ne_zero_of_pos h1 h2
  simp [execInstr, hb, hnz]

/-- C4: the bracket matcher resolves structurally nested pairs by depth
counting: on the program `[[-]]` (bytes `[91, 91, 45, 93, 93]`) the outer
`[` at offset 0 matches the outer `]` at offset 4 — never the inner `]`
at offset 3 — and the inner `[` at offset 1 matches the inner `]` at
offset 3; consequently running `[[-]]` on a cell holding any nonzero byte
value executes the inner loop until the cell is 0 and then exits both
loops, terminating with `E_NONE`, instruction offset 5 and a zero cell. -/
theorem c4_nested_bracket_matching :
    matchBracket [91, 91, 45, 93, 93] 0 true = (true, 4) ∧
    matchBracket [91, 91, 45, 93, 93] 1 true = (true, 3) ∧
    ∀ b : Nat, b < 256 → 0 < b →
      interpret ⟨1, false, false, false⟩ [91, 91, 45, 93, 93] 520 ⟨0, 0, [b], [], []⟩ =
        .done .E_NONE ⟨5, 0, [0], [], []⟩ := by
  refine ⟨by decide, by decide, ?_⟩
  intro b hlt hpos
  have hrun : interpret ⟨1, false, false, false⟩ [91, 91, 45, 93, 93] (2 * b + 4)
      ⟨0, 0, [b], [], []⟩ = .done .E_NONE ⟨5, 0, [0], [], []⟩ := by
    have hfuel : 2 * b + 4 = (2 * b + 2) + 1 + 1 := by ring
    rw [hfuel]
    rw [interpret_step (exec_lbracket_nonzero 0 (by omega) b hpos (by omega))
        (show getByte [91, 91, 45, 93, 93] 0 ≠ 0 by decide)]
    rw [interpret_step (exec_lbracket_nonzero 1 (by omega) b hpos (by omega))
        (show getByte [91, 91, 45, 93, 93] 1 ≠ 0 by decide)]
    obtain ⟨n, rfl⟩ : ∃ n, b = n + 1 := ⟨b - 1, by omega⟩
    exact c4_inner_loop n (by omega)
  exact interpret_more_fuel (by omega) _ hrun

/-- Witness for C4 at the concrete starting cell value 5. -/
theorem c4_nested_bracket_matching_witness :
    ((5 : Nat) < 256 ∧ (0 : Nat) < 5) ∧
    interpret ⟨1, false, false, false⟩ [91, 91, 45, 93, 93] 520 ⟨0, 0, [5], [], []⟩ =
      .done .E_NONE ⟨5, 0, [0], [], []⟩ :=
  ⟨⟨by decide, by decide⟩, c4_nested_bracket_matching.2.2 5 (by decide) (by decide)⟩

/-! ## C7: balanced bracket-only programs are no-ops -/

lemma getByte_of_le_length {code : List Nat} {p : Nat} (h : code.length ≤ p) :
    getByte code p = 0 := by
  simp [getByte, List.getElem?_eq_none h]

lemma getByte_mem {code : List Nat} {p : Nat} (h : p < code.length) :
    getByte code p ∈ code := by
  have : getByte code p = code[p] := by
    simp [getByte, List.getD_eq_getElem?_getD, List.getElem?_eq_getElem h]
  rw [this]
  exact List.getElem_mem h

lemma bracketOnly_byte {code : List Nat} (hB : BracketOnly code) {p : Nat}
    (h : p < code.length) :
    getByte code p = 91 ∨ getByte code p = 93 :=
  hB _ (getByte_mem h)

lemma depthAt_stable {code : List Nat} {k : Nat} (h : code.length ≤ k) :
    depthAt code k = depthAt code code.length := by
  unfold depthAt
  rw [List.take_of_length_le h, List.take_of_length_le (le_refl _)]

lemma depthAt_succ {code : List Nat} {k : Nat} (h : k < code.length) :
    depthAt code (k + 1) = depthAt code k + depthDelta (getByte code k) := by
  have hg : getByte code k = code[k] := by
    simp [getByte, List.getD_eq_getElem?_getD, List.getElem?_eq_getElem h]
  have ht : code.take (k + 1) = code.take k ++ [code[k]] := by
    rw [List.take_succ, List.getElem?_eq_getElem h]
    rfl
  unfold depthAt
  rw [ht, List.countP_append, List.countP_append, hg]
  by_cases h91 : code[k] = 91
  · rw [h91]
    simp [List.countP_cons, depthDelta]
    try omega
  · by_cases h93 : code[k] = 93
    · rw [h93]
      simp [List.countP_cons, depthDelta]
      try omega
    · have hb91 : (code[k] == 91) = false := beq_eq_false_iff_ne.mpr h91
      have hb93 : (code[k] == 93) = false := beq_eq_false_iff_ne.mpr h93
      simp [List.countP_cons, hb91, hb93, depthDelta, h91, h93]

/-- Success of the forward scan on a buffer whose running bracket depth
returns to balance before the end: if the pending depth `i` is positive
but adding the depth contribution of the remaining bytes would bring it
to zero or below, the scan finds a position inside the buffer where the
counter hits zero. -/
lemma matchFwdAux_success {code : List Nat} (hB : BracketOnly code) :
    ∀ (n pos : Nat) (i : Int) (fuel : Nat),
      code.length - pos = n → n < fuel → 1 ≤ i →
      i + (depthAt code code.length - depthAt code pos) ≤ 0 →
      ∃ j, pos ≤ j ∧ j < code.length ∧ matchFwdAux code fuel pos i = some j := by
  intro n
  induction n with
  | zero =>
    intro pos i fuel hn _ hi hbal
    have hpos : code.length ≤ pos := by omega
    rw [depthAt_stable hpos] at hbal
    omega
  | succ n ih =>
    intro pos i fuel hn hfuel hi hbal
    have hlt : pos < code.length := by omega
    rcases bracketOnly_byte hB hlt with hb | hb
    · -- byte `[` : the counter increases, the scan continues
      have hne : getByte code pos ≠ 0 := by rw [hb]; omega
      have hj : i + depthDelta (getByte code pos) = i + 1 := by
        rw [hb]; simp [depthDelta]
      cases fuel with
      | zero => omega
      | succ f =>
        have hstep : matchFwdAux code (f + 1) pos i = matchFwdAux code f (pos + 1) (i + 1) := by
          rw [matchFwdAux]
          simp only [hj]
          rw [if_neg (by omega), if_neg hne]
        obtain ⟨j, hj1, hj2, hj3⟩ := ih (pos + 1) (i + 1) f (by omega) (by omega) (by omega)
          (by rw [depthAt_succ hlt, hb]; simp [depthDelta]; omega)
        exact ⟨j, by omega, hj2, by rw [hstep, hj3]⟩
    · -- byte `]` : the counter decreases, the scan exits or continues
      have hne : getByte code pos ≠ 0 := by rw [hb]; omega
      have hj : i + depthDelta (getByte code pos) = i - 1 := by
        rw [hb]; simp [depthDelta]; try omega
      by_cases hz : i - 1 = 0
      · cases fuel with
        | zero => omega
        | succ f =>
          refine ⟨pos, le_refl _, hlt, ?_⟩
          rw [matchFwdAux]
          simp only [hj]
          rw [if_pos hz]
      · cases fuel with
        | zero => omega
        | succ f =>
          have hstep : matchFwdAux code (f + 1) pos i = matchFwdAux code f (pos + 1) (i - 1) := by
            rw [matchFwdAux]
            simp only [hj]
            rw [if_neg hz, if_neg hne]
          obtain ⟨j, hj1, hj2, hj3⟩ := ih (pos + 1) (i - 1) f (by omega) (by omega) (by omega)
            (by rw [depthAt_succ hlt, hb]; simp [depthDelta]; omega)
          exact ⟨j, by omega, hj2, by rw [hstep, hj3]⟩

/-- On a balanced bracket-only buffer, a forward match from any `[`
succeeds and lands strictly behind the `[` and inside the buffer. -/
lemma matchBracket_fwd_success {code : List Nat} (hB : BracketOnly code)
    (hD : BalancedDyck code) {ip : Nat} (hip : ip < code.length)
    (hb : getByte code ip = 91) :
    ∃ j, ip < j ∧ j < code.length ∧ matchBracket code ip true = (true, j) := by
  have hstep : matchFwdAux code (code.length + 1) ip 0 =
      matchFwdAux code code.length (ip + 1) 1 := by
    rw [matchFwdAux]
    have hj : (0 : Int) + depthDelta (getByte code ip) = 1 := by
      rw [hb]; simp [depthDelta]
    simp only [hj]
    rw [if_neg (by omega), if_neg (by rw [hb]; omega)]
  have hbal : (1 : Int) + (depthAt code code.length - depthAt code (ip + 1)) ≤ 0 := by
    rw [depthAt_succ hip, hb, hD.1]
    have := hD.2 ip (le_of_lt hip)
    simp [depthDelta]
    omega
  obtain ⟨j, hj1, hj2, hj3⟩ := matchFwdAux_success hB (code.length - (ip + 1)) (ip + 1) 1
    code.length rfl (by omega) (by omega) hbal
  refine ⟨j, by omega, hj2, ?_⟩
  unfold matchBracket
  rw [if_pos rfl, hstep, hj3]

lemma readCell_zero_tape (N : Nat) (dp : Int) :
    readCell (List.replicate N 0) dp = 0 := by
  unfold readCell
  split
  · rcases Nat.lt_or_ge dp.toNat N with h | h
    · simp [List.getD_eq_getElem?_getD, List.getElem?_replicate, h]
    · simp [List.getD_eq_default, h]
  · rfl

/-- One step of a bracket-only program on the all-zero tape: the
instruction offset strictly advances, stays inside the buffer bound, and
the tape is untouched. -/
lemma c7_exec_step {cfg : Config} {code : List Nat} (hB : BracketOnly code)
    (hD : BalancedDyck code) {s : BfState}
    (htape : s.tape = List.replicate cfg.dataSize 0) (hip : s.ip < code.length) :
    ∃ s', execInstr cfg code s = .ok s' ∧ s'.tape = s.tape ∧ s'.dp = s.dp ∧
      s'.input = s.input ∧ s.ip < s'.ip ∧ s'.ip ≤ code.length := by
  have hcell : toSigned (readCell s.tape s.dp) = 0 := by
    rw [htape, readCell_zero_tape]
    simp [toSigned]
  rcases bracketOnly_byte hB hip with hb | hb
  · obtain ⟨j, hj1, hj2, hj3⟩ := matchBracket_fwd_success hB hD hip hb
    refine ⟨{ s with ip := j + 1 }, ?_, rfl, rfl, rfl, by simp; omega, by simp; omega⟩
    simp [execInstr, hb, hcell, hj3]
  · refine ⟨{ s with ip := s.ip + 1 }, ?_, rfl, rfl, rfl, by simp, by simp; omega⟩
    simp [execInstr, hb, hcell]

lemma c7_run {cfg : Config} {code : List Nat} (hB : BracketOnly code)
    (hD : BalancedDyck code) :
    ∀ (n : Nat) (s : BfState), s.tape = List.replicate cfg.dataSize 0 →
      s.ip ≤ code.length → code.length - s.ip < n →
      ∃ fuel sF, interpret cfg code fuel s = .done .E_NONE sF ∧
        sF.tape = List.replicate cfg.dataSize 0 := by
  intro n
  induction n with
  | zero => intro s _ _ h; omega
  | succ n ih =>
    intro s htape hle hlt
    rcases Nat.lt_or_ge s.ip code.length with hincode | hend
    · obtain ⟨s', hE, ht', _, _, hgt, hle'⟩ := c7_exec_step hB hD htape hincode
      have hbne : getByte code s.ip ≠ 0 := by
        rcases bracketOnly_byte hB hincode with hb | hb <;> rw [hb] <;> omega
      obtain ⟨fuel, sF, hrun, htF⟩ := ih s' (ht'.trans htape) hle' (by omega)
      exact ⟨fuel + 1, sF, by rw [interpret_step hE hbne]; exact hrun, htF⟩
    · have hb0 : getByte code s.ip = 0 := getByte_of_le_length hend
      exact ⟨1, s, by rw [interpret, if_pos hb0], htape⟩

/-- C7: every program consisting only of balanced `[` and `]` brackets,
executed with bounds checking disabled on the freshly allocated all-zero
tape, terminates successfully (`E_NONE`) and leaves every tape cell equal
to zero. -/
theorem c7_balanced_brackets_are_noops (cfg : Config) (code : List Nat)
    (hB : BracketOnly code) (hD : BalancedDyck code)
    (_hbounds : cfg.enableBoundsCheck = false) :
    ∃ fuel sF, interpret cfg code fuel (initState cfg []) = .done .E_NONE sF ∧
      sF.tape = List.replicate cfg.dataSize 0 :=
  c7_run hB hD (code.length + 1) (initState cfg []) rfl (Nat.zero_le _) (by omega)

/-- Witness for C7 at a concrete input: the program `[]` with a one-cell
tape and all checks off. -/
theorem c7_balanced_brackets_are_noops_witness :
    (BracketOnly [91, 93] ∧ BalancedDyck [91, 93] ∧
      (⟨1, false, false, false⟩ : Config).enableBoundsCheck = false) ∧
    (∃ fuel sF,
      interpret ⟨1, false, false, false⟩ [91, 93] fuel
          (initState ⟨1, false, false, false⟩ []) = .done .E_NONE sF ∧
        sF.tape = List.replicate (⟨1, false, false, false⟩ : Config).dataSize 0) :=
  ⟨⟨by unfold BracketOnly; decide, by unfold BalancedDyck; decide, rfl⟩,
    c7_balanced_brackets_are_noops ⟨1, false, false, false⟩ [91, 93]
      (by unfold BracketOnly; decide) (by unfold BalancedDyck; decide) rfl⟩

end Brainfuck
